import Mathlib

/-!
# Verification of the KSeF incremental invoice fetcher

Shallow embedding of the core of `aiv/ksef-cli` (files `crypto.py`,
`client.py`, `fetch_invoices.py`) and proofs about it.

Bytes are modelled as `Nat` (values < 256 where it matters), byte strings
as `List Nat`, JSON dictionaries as Lean structures with `Option` fields
for optional keys, and the persisted state dictionary as a function
`String → Option String`.
-/

namespace KsefCli

/-! ## Crypto (`crypto.py`, `Crypto.decrypt_aes`)

`decrypt_aes` calls the `cryptography` library to perform AES-256-CBC
decryption (lines 89-92) and then strips PKCS#7 padding itself
(lines 95-96).  The AES-256 block permutation under a fixed 32-byte key is
an external library primitive; it is modelled as an abstract block map
passed as a parameter.  The CBC chaining, and the repository's own
padding-strip logic, are modelled explicitly. -/

/-- XOR of two byte strings, pointwise (used by CBC chaining). -/
def xorBytes (a b : List Nat) : List Nat :=
  List.zipWith (fun x y => x ^^^ y) a b

/-- Fuel-driven worker for `chunks16`; the fuel only bounds the recursion
depth (one unit per emitted block) and never runs out when it starts at
the length of the input. -/
def chunksGo : Nat → List Nat → List (List Nat)
  | 0, _ => []
  | fuel + 1, bs => if bs = [] then [] else bs.take 16 :: chunksGo fuel (bs.drop 16)

/-- Split a byte string into consecutive 16-byte blocks
(the final block is shorter if the length is not a multiple of 16). -/
def chunks16 (bs : List Nat) : List (List Nat) := chunksGo bs.length bs

theorem chunksGo_nil (f : Nat) : chunksGo f [] = [] := by
  cases f <;> rfl

theorem chunksGo_congr (f : Nat) : ∀ (g : Nat) (bs : List Nat),
    bs.length ≤ f → bs.length ≤ g → chunksGo f bs = chunksGo g bs := by
  induction f with
  | zero =>
    intro g bs hf _
    have : bs = [] := List.length_eq_zero.mp (by omega)
    subst this
    rw [chunksGo_nil, chunksGo_nil]
  | succ f ih =>
    intro g bs hf hg
    by_cases hbs : bs = []
    · subst hbs; rw [chunksGo_nil, chunksGo_nil]
    · have hpos : 0 < bs.length := List.length_pos.mpr hbs
      cases g with
      | zero => omega
      | succ g =>
        show chunksGo (f + 1) bs = chunksGo (g + 1) bs
        rw [chunksGo, chunksGo, if_neg hbs, if_neg hbs]
        have hd : (bs.drop 16).length = bs.length - 16 := List.length_drop 16 bs
        rw [ih g (bs.drop 16) (by omega) (by omega)]

/-- The recurrence satisfied by `chunks16`. -/
theorem chunks16_eq (bs : List Nat) :
    chunks16 bs = if bs = [] then [] else bs.take 16 :: chunks16 (bs.drop 16) := by
  by_cases hbs : bs = []
  · subst hbs
    simp [chunks16, chunksGo]
  · rw [if_neg hbs]
    have hpos : 0 < bs.length := List.length_pos.mpr hbs
    show chunksGo bs.length bs = _
    cases hlen : bs.length with
    | zero => omega
    | succ n =>
      rw [chunksGo, if_neg hbs]
      have hd : (bs.drop 16).length = bs.length - 16 := List.length_drop 16 bs
      rw [chunksGo_congr n (bs.drop 16).length (bs.drop 16) (by omega) (by omega)]
      rfl

/-- CBC encryption at block level: each plaintext block is XORed with the
previous ciphertext block (initially the IV) and then passed through the
block cipher `E`. -/
def cbcEncryptBlocks (E : List Nat → List Nat) : List Nat → List (List Nat) → List (List Nat)
  | _, [] => []
  | prev, b :: bs =>
    let c := E (xorBytes b prev)
    c :: cbcEncryptBlocks E c bs

/-- CBC decryption at block level: each ciphertext block is passed through
the inverse block cipher `D` and XORed with the previous ciphertext block
(initially the IV). -/
def cbcDecryptBlocks (D : List Nat → List Nat) : List Nat → List (List Nat) → List (List Nat)
  | _, [] => []
  | prev, c :: cs => xorBytes (D c) prev :: cbcDecryptBlocks D c cs

/-- The padding strip of `Crypto.decrypt_aes` (crypto.py lines 95-96):
read the last byte `p` of the decrypted data and return `decrypted[:-p]`.
In Python, `decrypted[:-0]` is the empty bytes object, and for `p` larger
than the length the slice is empty as well; `decrypted[-1]` on an empty
input raises `IndexError`, modelled as `none`.  No padding validation of
any kind is performed by the source. -/
def stripPkcs7 (decrypted : List Nat) : Option (List Nat) :=
  match decrypted.getLast? with
  | none => none
  | some p => some (if p = 0 then [] else decrypted.take (decrypted.length - p))

/-- `Crypto.decrypt_aes` (crypto.py lines 77-96): AES-256-CBC-decrypt the
input (library call, modelled by the abstract block map `D` and explicit
CBC chaining with `iv`), then strip PKCS#7 padding via `stripPkcs7`. -/
def decrypt_aes (D : List Nat → List Nat) (iv : List Nat) (ct : List Nat) :
    Option (List Nat) :=
  stripPkcs7 ((cbcDecryptBlocks D iv (chunks16 ct)).flatten)

/-- PKCS#7 padding: append `p` copies of the byte `p`, where
`p = 16 - len % 16` (so `1 ≤ p ≤ 16`). -/
def pkcs7pad (m : List Nat) : List Nat :=
  let p := 16 - m.length % 16
  m ++ List.replicate p p

/-- Modelled from the spec: `encryptFixture` — the reference AES-256-CBC
encryption of the PKCS#7-padded plaintext used by the spec's round-trip
property (§8 "Round-trip envelope").  It is not part of `src/`; `E` is the
AES-256 block permutation under the chosen 32-byte key. -/
def encryptFixture (E : List Nat → List Nat) (iv : List Nat) (m : List Nat) : List Nat :=
  (cbcEncryptBlocks E iv (chunks16 (pkcs7pad m))).flatten

/-! ### Crypto lemmas -/

theorem xorBytes_length (a b : List Nat) :
    (xorBytes a b).length = min a.length b.length := by
  simp [xorBytes]

theorem xorBytes_xorBytes (a b : List Nat) (h : a.length = b.length) :
    xorBytes (xorBytes a b) b = a := by
  induction a generalizing b with
  | nil => cases b <;> simp [xorBytes]
  | cons x xs ih =>
    cases b with
    | nil => simp at h
    | cons y ys =>
      simp only [List.length_cons, Nat.succ_inj] at h
      simp only [xorBytes, List.zipWith_cons_cons]
      have := ih ys h
      simp only [xorBytes] at this
      simp [this, Nat.xor_assoc, Nat.xor_self]

theorem chunks16_join (bs : List Nat) : (chunks16 bs).flatten = bs := by
  generalize hn : bs.length = n
  induction n using Nat.strong_induction_on generalizing bs with
  | _ n ih =>
    rw [chunks16_eq]
    by_cases hbs : bs = []
    · simp [hbs]
    · have hpos : 0 < bs.length := List.length_pos.mpr hbs
      have hd : (bs.drop 16).length = bs.length - 16 := List.length_drop 16 bs
      rw [if_neg hbs]
      simp only [List.flatten_cons]
      rw [ih (bs.drop 16).length (by omega) (bs.drop 16) rfl]
      exact List.take_append_drop 16 bs

theorem chunks16_of_join (cs : List (List Nat)) (h : ∀ c ∈ cs, c.length = 16) :
    chunks16 cs.flatten = cs := by
  induction cs with
  | nil =>
    rw [chunks16_eq]
    simp
  | cons c cs ih =>
    have hc : c.length = 16 := h c (by simp)
    have hne : (c :: cs).flatten ≠ [] := by
      simp only [List.flatten_cons, ne_eq, List.append_eq_nil, not_and]
      intro hcnil
      rw [hcnil] at hc
      simp at hc
    rw [chunks16_eq, if_neg hne]
    have htake : (c ++ cs.flatten).take 16 = c := by
      rw [← hc]
      exact List.take_left c cs.flatten
    have hdrop : (c ++ cs.flatten).drop 16 = cs.flatten := by
      rw [← hc]
      exact List.drop_left c cs.flatten
    simp only [List.flatten_cons, htake, hdrop]
    rw [ih (fun x hx => h x (by simp [hx]))]

theorem cbcEncryptBlocks_length (E : List Nat → List Nat)
    (hE : ∀ b, b.length = 16 → (E b).length = 16) :
    ∀ (cs : List (List Nat)) (prev : List Nat),
      (∀ c ∈ cs, c.length = 16) → prev.length = 16 →
      ∀ b ∈ cbcEncryptBlocks E prev cs, b.length = 16 := by
  intro cs
  induction cs with
  | nil => intro prev _ _ b hb; simp [cbcEncryptBlocks] at hb
  | cons c cs ih =>
    intro prev hcs hprev b hb
    have hc : c.length = 16 := hcs c (by simp)
    have hx : (xorBytes c prev).length = 16 := by
      rw [xorBytes_length, hc, hprev]; simp
    have hEc : (E (xorBytes c prev)).length = 16 := hE _ hx
    simp only [cbcEncryptBlocks, List.mem_cons] at hb
    rcases hb with rfl | hb
    · exact hEc
    · exact ih _ (fun x hx => hcs x (by simp [hx])) hEc b hb

theorem cbcDecrypt_cbcEncrypt (E D : List Nat → List Nat)
    (hD : ∀ b, b.length = 16 → D (E b) = b)
    (hE : ∀ b, b.length = 16 → (E b).length = 16) :
    ∀ (cs : List (List Nat)) (prev : List Nat),
      (∀ c ∈ cs, c.length = 16) → prev.length = 16 →
      cbcDecryptBlocks D prev (cbcEncryptBlocks E prev cs) = cs := by
  intro cs
  induction cs with
  | nil => intro prev _ _; simp [cbcEncryptBlocks, cbcDecryptBlocks]
  | cons c cs ih =>
    intro prev hcs hprev
    have hc : c.length = 16 := hcs c (by simp)
    have hx : (xorBytes c prev).length = 16 := by
      rw [xorBytes_length, hc, hprev]; simp
    simp only [cbcEncryptBlocks, cbcDecryptBlocks]
    rw [hD _ hx, xorBytes_xorBytes c prev (by rw [hc, hprev])]
    rw [ih _ (fun x hx => hcs x (by simp [hx])) (hE _ hx)]

theorem pkcs7pad_length (m : List Nat) :
    (pkcs7pad m).length = m.length + (16 - m.length % 16) := by
  simp [pkcs7pad]

theorem chunks16_blocks_aux : ∀ (n : Nat) (bs : List Nat), bs.length = n → 16 ∣ n →
    ∀ c ∈ chunks16 bs, c.length = 16 := by
  intro n
  induction n using Nat.strong_induction_on with
  | _ n ih =>
    intro bs hn hdvd
    rw [chunks16_eq]
    by_cases hbs : bs = []
    · simp [hbs]
    · have hpos : 0 < bs.length := List.length_pos.mpr hbs
      have hlen : 16 ≤ bs.length := by
        rcases hdvd with ⟨k, hk⟩
        rcases k with _ | k
        · omega
        · omega
      rw [if_neg hbs]
      intro c hc
      simp only [List.mem_cons] at hc
      rcases hc with rfl | hc
      · simp [List.length_take]; omega
      · have hd : (bs.drop 16).length = bs.length - 16 := List.length_drop 16 bs
        rcases hdvd with ⟨k, hk⟩
        exact ih (bs.drop 16).length (by omega) (bs.drop 16) rfl
          ⟨k - 1, by omega⟩ c hc

theorem pkcs7pad_blocks (m : List Nat) :
    ∀ c ∈ chunks16 (pkcs7pad m), c.length = 16 := by
  have hdvd : 16 ∣ (pkcs7pad m).length := by
    rw [pkcs7pad_length]
    have h1 : m.length % 16 < 16 := Nat.mod_lt _ (by omega)
    have h3 : m.length + (16 - m.length % 16)
        = 16 * (m.length / 16) + 16 := by
      conv_lhs => rw [← Nat.div_add_mod m.length 16]
      omega
    rw [h3]
    exact Dvd.intro (m.length / 16 + 1) (by ring)
  exact chunks16_blocks_aux (pkcs7pad m).length (pkcs7pad m) rfl hdvd

theorem stripPkcs7_pkcs7pad (m : List Nat) : stripPkcs7 (pkcs7pad m) = some m := by
  have h1 : m.length % 16 < 16 := Nat.mod_lt _ (by omega)
  set p := 16 - m.length % 16 with hp
  have hppos : 0 < p := by omega
  have hlast : (pkcs7pad m).getLast? = some p := by
    show (m ++ List.replicate p p).getLast? = some p
    rcases p with _ | k
    · omega
    · rw [List.replicate_succ', ← List.append_assoc, List.getLast?_concat]
  have hdl : (pkcs7pad m).length = m.length + p := by
    show (m ++ List.replicate p p).length = m.length + p
    simp
  unfold stripPkcs7
  rw [hlast]
  show some (if p = 0 then [] else (pkcs7pad m).take ((pkcs7pad m).length - p)) = some m
  rw [if_neg (by omega : p ≠ 0), hdl]
  have h2 : m.length + p - p = m.length := by omega
  rw [h2]
  show some ((m ++ List.replicate p p).take m.length) = some m
  rw [List.take_left]

/-! ## Polling loops (`client.py` `_wait_for_auth_completion`,
`fetch_invoices.py` `_wait_for_export_completion`)

Both loops have the same shape: up to `max_attempts` times, fetch the
status; a code of exactly 200 returns it, a code `>= 400` raises with the
server-supplied description (defaulted to `"Unknown error"`), anything
else sleeps and retries; exhausting the attempts raises a timeout.  The
sequence of server responses is modelled as a function from the call
index; the outcome records how many status calls and how many sleeps were
performed. -/

/-- Outcome of a bounded polling loop, recording the number of status
calls made and the number of sleeps performed. -/
inductive PollOutcome (α : Type) where
  | success (s : α) (calls : Nat) (sleeps : Nat)
  | failed (description : String) (calls : Nat)
  | timeout (calls : Nat)
deriving DecidableEq

/-- The shared polling loop shape of `_wait_for_auth_completion`
(client.py lines 85-106) and `_wait_for_export_completion`
(fetch_invoices.py lines 110-126): `code` and `desc` project the status
code and error description out of a response, `resp i` is the server's
response to the `i`-th status call, `fuel` is the remaining attempts. -/
def pollLoop (code : α → Int) (desc : α → String) (resp : Nat → α) :
    Nat → Nat → Nat → PollOutcome α
  | 0, calls, _ => .timeout calls
  | fuel + 1, calls, sleeps =>
    let s := resp calls
    if code s = 200 then .success s (calls + 1) sleeps
    else if 400 ≤ code s then .failed (desc s) (calls + 1)
    else pollLoop code desc resp fuel (calls + 1) (sleeps + 1)

/-- An authentication status response: `data.get('status', {}).get('code')`
and the optional description.  Claims only concern responses that carry a
code, so the code field is total. -/
structure AuthStatus where
  code : Int
  description : Option String
deriving DecidableEq

/-- A package descriptor as returned inside an export status response
(`status['package']`).  `isTruncated` models the truthiness of
`package.get('isTruncated')` (an absent key behaves as `false`). -/
structure Package where
  parts : List String
  isTruncated : Bool
  lastPermanentStorageDate : Option String
  permanentStorageHwmDate : Option String
deriving DecidableEq

/-- An export status response: the status code, the optional description,
and the optional `package` field. -/
structure ExportStatus where
  code : Int
  description : Option String
  package : Option Package
deriving DecidableEq

/-- `KSeFClient._wait_for_auth_completion` (client.py lines 85-106):
polling with `max_attempts = 10`. -/
def waitForAuthCompletion (resp : Nat → AuthStatus) : PollOutcome AuthStatus :=
  pollLoop (fun s => s.code) (fun s => s.description.getD "Unknown error") resp 10 0 0

/-- `InvoiceFetcher._wait_for_export_completion` (fetch_invoices.py lines
110-126): polling with `max_attempts = 60`. -/
def waitForExportCompletion (resp : Nat → ExportStatus) : PollOutcome ExportStatus :=
  pollLoop (fun s => s.code) (fun s => s.description.getD "Unknown error") resp 60 0 0

/-! ## Continuation-point state (`fetch_invoices.py`) -/

/-- The persisted state dictionary (`.ksef_state.json` contents / the
in-memory `self.state`): a map from keys to stored cursor strings. -/
def StateMap : Type := String → Option String

/-- Dictionary assignment `self.state[key] = value`. -/
def StateMap.set (st : StateMap) (k v : String) : StateMap :=
  fun k' => if k' = k then some v else st k'

/-- The per-subject-role state key `f"continuation_point_{subject_type}"`. -/
def stateKey (subj : String) : String := "continuation_point_" ++ subj

/-- `InvoiceFetcher._update_continuation_point` (fetch_invoices.py lines
203-216): if the package's `isTruncated` is truthy, store
`lastPermanentStorageDate` when that is truthy (non-empty); otherwise
store `permanentStorageHwmDate` when that is truthy; in all other cases
leave the state unchanged. -/
def updateContinuationPoint (st : StateMap) (subj : String) (pkg : Package) : StateMap :=
  if pkg.isTruncated then
    match pkg.lastPermanentStorageDate with
    | some d => if d = "" then st else st.set (stateKey subj) d
    | none => st
  else
    match pkg.permanentStorageHwmDate with
    | some d => if d = "" then st else st.set (stateKey subj) d
    | none => st

/-- A UTC date-time, as produced by `datetime.now(timezone.utc)`. -/
structure DateTimeU where
  year : Nat
  month : Nat
  day : Nat
  hour : Nat
  minute : Nat
  second : Nat
  microsecond : Nat
deriving DecidableEq

/-- `now.replace(day=1, hour=0, minute=0, second=0, microsecond=0)`
(fetch_invoices.py line 87): the first instant of `now`'s calendar month. -/
def firstOfMonth (now : DateTimeU) : DateTimeU :=
  { now with day := 1, hour := 0, minute := 0, second := 0, microsecond := 0 }

/-- The `date_from` computation of `_fetch_for_subject_type`
(fetch_invoices.py lines 82-87): use the stored cursor if it is truthy
(present and non-empty), else the first instant of the current month.
`Sum.inl` is a stored cursor string, `Sum.inr` a computed date-time
(whose ISO rendering is library behaviour). -/
def effectiveDateFrom (stored : Option String) (now : DateTimeU) : String ⊕ DateTimeU :=
  match stored with
  | some s => if s = "" then Sum.inr (firstOfMonth now) else Sum.inl s
  | none => Sum.inr (firstOfMonth now)

/-! ## Invoice materialization (`fetch_invoices.py` `_save_invoice`,
`_process_package`) -/

/-- A newly fetched invoice, as appended to `self.new_invoices`
(fetch_invoices.py lines 198-201). -/
structure InvoiceRecord where
  ksefNumber : String
  filename : String
deriving DecidableEq

/-- The filesystem-and-dedup state of one run: the contents of the
`faktury/` directory (filename/content pairs), the in-memory seen-set
`self.downloaded_invoices`, and the list `self.new_invoices`. -/
structure FsState where
  disk : List (String × String)
  downloaded : List String
  newInvoices : List InvoiceRecord
deriving DecidableEq

/-- File lookup in the invoice directory (`invoice_path.exists()` plus the
stored content). -/
def lookupFile (f : String) : List (String × String) → Option String
  | [] => none
  | (g, c) :: rest => if f = g then some c else lookupFile f rest

/-- A zip archive entry. -/
structure Doc where
  filename : String
  content : String
deriving DecidableEq

/-- Fuel-driven worker for `pyReplace`; the fuel bounds the recursion depth
(at least one character is consumed per step) and never runs out when it
starts at the length of the input. -/
def replaceGo (old new : List Char) : Nat → List Char → List Char
  | 0, s => s
  | _ + 1, [] => []
  | fuel + 1, c :: rest =>
    if old.isPrefixOf (c :: rest) then
      new ++ replaceGo old new fuel ((c :: rest).drop old.length)
    else c :: replaceGo old new fuel rest

/-- Python's `str.replace(old, new)`: replace every non-overlapping
occurrence of `old`, scanning left to right. -/
def pyReplace (s old new : String) : String :=
  ⟨replaceGo old.data new.data s.data.length s.data⟩

/-- Python's `str.endswith(suffix)`. -/
def pyEndsWith (s suffix : String) : Bool := suffix.data.isSuffixOf s.data

/-- The ksef-number derivation of `_save_invoice` (fetch_invoices.py lines
165-177): scan `metadata['invoices']` for the first entry whose
`f"{ksefNumber}.xml"` equals the filename; if none is found (or the found
number is falsy), fall back to `filename.replace('.xml', '')`, which
removes every occurrence of `".xml"`. -/
def deriveKsefNumber (metadata : Option (List String)) (filename : String) : String :=
  let fromMeta : Option String :=
    metadata.bind (fun invs => invs.find? (fun k => k ++ ".xml" == filename))
  match fromMeta with
  | some k => if k = "" then pyReplace filename ".xml" "" else k
  | none => pyReplace filename ".xml" ""

/-- `InvoiceFetcher._save_invoice` (fetch_invoices.py lines 163-201):
derive the ksef number; skip if already in the seen-set; if the file
already exists on disk, add the number to the seen-set and skip; otherwise
write the file, add the number to the seen-set and append a new
`InvoiceRecord`. -/
def saveInvoice (fs : FsState) (metadata : Option (List String)) (d : Doc) : FsState :=
  let ksefNumber := deriveKsefNumber metadata d.filename
  if ksefNumber ∈ fs.downloaded then fs
  else if (lookupFile d.filename fs.disk).isSome then
    { fs with downloaded := ksefNumber :: fs.downloaded }
  else
    { disk := (d.filename, d.content) :: fs.disk,
      downloaded := ksefNumber :: fs.downloaded,
      newInvoices := fs.newInvoices ++ [⟨ksefNumber, d.filename⟩] }

/-- The extraction loop of `_process_package` (fetch_invoices.py lines
158-161): `_save_invoice` on every archive entry whose name ends in
`.xml`, in archive order. -/
def processArchive (fs : FsState) (metadata : Option (List String)) (entries : List Doc) :
    FsState :=
  (entries.filter (fun d => pyEndsWith d.filename ".xml")).foldl
    (fun s d => saveInvoice s metadata d) fs

/-- The decrypted, unzipped contents of a package: the ksef numbers listed
in `_metadata.json` (when present) and the zip entries in namelist order.
Downloading, decryption (`decrypt_aes`) and unzipping are network/library
effects; their result is supplied as data. -/
structure Archive where
  metadata : Option (List String)
  entries : List Doc
deriving DecidableEq

/-- `InvoiceFetcher._process_package` (fetch_invoices.py lines 128-161):
if the package has no parts, do nothing; otherwise download every part (in
order — the returned URL list is the download effect), decrypt, unzip and
extract via `processArchive`. -/
def processPackage (fs : FsState) (pkg : Package) (archive : Archive) :
    FsState × List String :=
  if pkg.parts = [] then (fs, [])
  else (processArchive fs archive.metadata archive.entries, pkg.parts)

/-! ## Per-role fetch and the run driver (`fetch_invoices.py`
`_fetch_for_subject_type`, `fetch_invoices`) -/

/-- What one `_fetch_for_subject_type` call did: the resulting
continuation state and filesystem state (or the raised error), the
`date_from` value passed to `export_invoices`, and the part URLs fetched. -/
structure RoleOutcome where
  result : Except String (StateMap × FsState)
  dateFromUsed : String ⊕ DateTimeU
  partsFetched : List String

/-- `InvoiceFetcher._fetch_for_subject_type` (fetch_invoices.py lines
78-108): compute `date_from`, start the export (network effect), poll for
completion, and if the returned status carries a truthy `package`, process
it and update the continuation point; poll failure or timeout raises. -/
def fetchForSubjectType (st : StateMap) (fs : FsState) (subj : String)
    (now : DateTimeU) (resp : Nat → ExportStatus) (archive : Archive) : RoleOutcome :=
  let dateFrom := effectiveDateFrom (st (stateKey subj)) now
  match waitForExportCompletion resp with
  | .success status _ _ =>
    match status.package with
    | none => { result := .ok (st, fs), dateFromUsed := dateFrom, partsFetched := [] }
    | some pkg =>
      let r := processPackage fs pkg archive
      { result := .ok (updateContinuationPoint st subj pkg, r.1),
        dateFromUsed := dateFrom, partsFetched := r.2 }
  | .failed d _ =>
    { result := .error ("Eksport nie powiódł się: " ++ d),
      dateFromUsed := dateFrom, partsFetched := [] }
  | .timeout _ =>
    { result := .error "Timeout podczas oczekiwania na eksport",
      dateFromUsed := dateFrom, partsFetched := [] }

/-- `InvoiceFetcher.SUBJECT_TYPES` (fetch_invoices.py line 32). -/
def SUBJECT_TYPES : List String := ["Subject1", "Subject2", "Subject3"]

/-- The per-role environment: the server's export-status responses and the
decrypted archive contents for that role's package. -/
structure RoleEnv where
  resp : Nat → ExportStatus
  archive : Archive

/-- The `for subject_type in self.SUBJECT_TYPES` loop of `fetch_invoices`
(fetch_invoices.py lines 69-70): threads the in-memory state and
filesystem state through each role; an exception aborts the loop. -/
def fetchLoop (env : String → RoleEnv) (now : DateTimeU) :
    StateMap → FsState → List String → Except String (StateMap × FsState)
  | st, fs, [] => .ok (st, fs)
  | st, fs, subj :: rest =>
    match (fetchForSubjectType st fs subj now (env subj).resp (env subj).archive).result with
    | .error e => .error e
    | .ok r => fetchLoop env now r.1 r.2 rest

/-- Result of a whole run: the returned summary (count and list of new
invoices, per `_format_output`) or the propagated error, and the final
contents of the durable state file `.ksef_state.json`. -/
structure RunResult where
  outcome : Except String (Nat × List InvoiceRecord)
  fileState : StateMap

/-- `InvoiceFetcher.fetch_invoices` (fetch_invoices.py lines 63-76):
authenticate, process every subject type in order, then — only after the
whole loop finishes — call `_save_state`, which writes the in-memory state
to the state file.  On any exception the state file keeps its initial
contents, because `_save_state` is never reached. -/
def fetchInvoices (initialFile : StateMap) (initialDisk : List (String × String))
    (authResult : Except String Unit) (env : String → RoleEnv) (now : DateTimeU) :
    RunResult :=
  match authResult with
  | .error e => { outcome := .error e, fileState := initialFile }
  | .ok _ =>
    match fetchLoop env now initialFile ⟨initialDisk, [], []⟩ SUBJECT_TYPES with
    | .ok r => { outcome := .ok (r.2.newInvoices.length, r.2.newInvoices), fileState := r.1 }
    | .error e => { outcome := .error e, fileState := initialFile }

/-! ## Polling-loop lemmas -/

theorem pollLoop_success {α : Type} (code : α → Int) (desc : α → String) (resp : Nat → α) :
    ∀ (N fuel calls sleeps : Nat), N < fuel →
      (∀ i, i < N → code (resp (calls + i)) ≠ 200 ∧ code (resp (calls + i)) < 400) →
      code (resp (calls + N)) = 200 →
      pollLoop code desc resp fuel calls sleeps
        = .success (resp (calls + N)) (calls + N + 1) (sleeps + N) := by
  intro N
  induction N with
  | zero =>
    intro fuel calls sleeps hfuel _ h200
    cases fuel with
    | zero => omega
    | succ f =>
      simp only [Nat.add_zero] at h200 ⊢
      simp [pollLoop, h200]
  | succ N ih =>
    intro fuel calls sleeps hfuel hpre h200
    cases fuel with
    | zero => omega
    | succ f =>
      have h0 := hpre 0 (by omega)
      simp only [Nat.add_zero] at h0
      have e1 : calls + (N + 1) = calls + 1 + N := by omega
      have e2 : sleeps + (N + 1) = sleeps + 1 + N := by omega
      rw [e1, e2]
      have step : pollLoop code desc resp (f + 1) calls sleeps
          = pollLoop code desc resp f (calls + 1) (sleeps + 1) := by
        simp only [pollLoop]
        rw [if_neg h0.1, if_neg (by omega)]
      rw [step]
      refine ih f (calls + 1) (sleeps + 1) (by omega) ?_ ?_
      · intro i hi
        have := hpre (i + 1) (by omega)
        have e3 : calls + (i + 1) = calls + 1 + i := by omega
        rwa [e3] at this
      · rwa [← e1]

theorem pollLoop_timeout {α : Type} (code : α → Int) (desc : α → String) (resp : Nat → α) :
    ∀ (fuel calls sleeps : Nat),
      (∀ i, i < fuel → code (resp (calls + i)) ≠ 200 ∧ code (resp (calls + i)) < 400) →
      pollLoop code desc resp fuel calls sleeps = .timeout (calls + fuel) := by
  intro fuel
  induction fuel with
  | zero => intro calls sleeps _; simp [pollLoop]
  | succ f ih =>
    intro calls sleeps hpre
    have h0 := hpre 0 (by omega)
    simp only [Nat.add_zero] at h0
    have step : pollLoop code desc resp (f + 1) calls sleeps
        = pollLoop code desc resp f (calls + 1) (sleeps + 1) := by
      simp only [pollLoop]
      rw [if_neg h0.1, if_neg (by omega)]
    rw [step]
    rw [ih (calls + 1) (sleeps + 1) ?_]
    · congr 1
      omega
    · intro i hi
      have := hpre (i + 1) (by omega)
      have e3 : calls + (i + 1) = calls + 1 + i := by omega
      rwa [e3] at this

theorem pollLoop_failed {α : Type} (code : α → Int) (desc : α → String) (resp : Nat → α) :
    ∀ (k fuel calls sleeps : Nat), k < fuel →
      (∀ i, i < k → code (resp (calls + i)) ≠ 200 ∧ code (resp (calls + i)) < 400) →
      400 ≤ code (resp (calls + k)) →
      pollLoop code desc resp fuel calls sleeps
        = .failed (desc (resp (calls + k))) (calls + k + 1) := by
  intro k
  induction k with
  | zero =>
    intro fuel calls sleeps hfuel _ h400
    cases fuel with
    | zero => omega
    | succ f =>
      simp only [Nat.add_zero] at h400 ⊢
      simp only [pollLoop]
      rw [if_neg (by omega), if_pos h400]
  | succ k ih =>
    intro fuel calls sleeps hfuel hpre h400
    cases fuel with
    | zero => omega
    | succ f =>
      have h0 := hpre 0 (by omega)
      simp only [Nat.add_zero] at h0
      have e1 : calls + (k + 1) = calls + 1 + k := by omega
      rw [e1]
      have step : pollLoop code desc resp (f + 1) calls sleeps
          = pollLoop code desc resp f (calls + 1) (sleeps + 1) := by
        simp only [pollLoop]
        rw [if_neg h0.1, if_neg (by omega)]
      rw [step]
      refine ih f (calls + 1) (sleeps + 1) (by omega) ?_ ?_
      · intro i hi
        have := hpre (i + 1) (by omega)
        have e3 : calls + (i + 1) = calls + 1 + i := by omega
        rwa [e3] at this
      · rwa [← e1]

/-! ## Claim theorems -/

/-- C5: for both the authentication polling loop (`max_attempts = 10`,
client.py lines 85-106) and the export polling loop (`max_attempts = 60`,
fetch_invoices.py lines 110-126): a sequence of `N` status codes that are
neither 200 nor `≥ 400`, followed by a 200 within the attempt ceiling,
makes the loop return success after exactly `N + 1` status calls with
exactly `N` sleeps (so no sleep after the final call); a sequence that
stays non-terminal for the whole ceiling raises a timeout error, not
success; and a first terminal code `≥ 400` raises a failure carrying the
server-supplied description. -/
theorem poll_loops_terminal_behaviour :
    (∀ (resp : Nat → AuthStatus) (N : Nat), N < 10 →
        (∀ i, i < N → (resp i).code ≠ 200 ∧ (resp i).code < 400) →
        (resp N).code = 200 →
        waitForAuthCompletion resp = .success (resp N) (N + 1) N)
    ∧ (∀ resp : Nat → AuthStatus,
        (∀ i, i < 10 → (resp i).code ≠ 200 ∧ (resp i).code < 400) →
        waitForAuthCompletion resp = .timeout 10)
    ∧ (∀ (resp : Nat → AuthStatus) (k : Nat), k < 10 →
        (∀ i, i < k → (resp i).code ≠ 200 ∧ (resp i).code < 400) →
        400 ≤ (resp k).code →
        waitForAuthCompletion resp
          = .failed ((resp k).description.getD "Unknown error") (k + 1))
    ∧ (∀ (resp : Nat → ExportStatus) (N : Nat), N < 60 →
        (∀ i, i < N → (resp i).code ≠ 200 ∧ (resp i).code < 400) →
        (resp N).code = 200 →
        waitForExportCompletion resp = .success (resp N) (N + 1) N)
    ∧ (∀ resp : Nat → ExportStatus,
        (∀ i, i < 60 → (resp i).code ≠ 200 ∧ (resp i).code < 400) →
        waitForExportCompletion resp = .timeout 60)
    ∧ (∀ (resp : Nat → ExportStatus) (k : Nat), k < 60 →
        (∀ i, i < k → (resp i).code ≠ 200 ∧ (resp i).code < 400) →
        400 ≤ (resp k).code →
        waitForExportCompletion resp
          = .failed ((resp k).description.getD "Unknown error") (k + 1)) := by
  refine ⟨?_, ?_, ?_, ?_, ?_, ?_⟩
  · intro resp N hN hpre h200
    have := pollLoop_success (fun s => s.code) (fun s => s.description.getD "Unknown error")
      resp N 10 0 0 hN (by simpa using hpre) (by simpa using h200)
    simpa [waitForAuthCompletion] using this
  · intro resp hpre
    have := pollLoop_timeout (fun s => s.code) (fun s => s.description.getD "Unknown error")
      resp 10 0 0 (by simpa using hpre)
    simpa [waitForAuthCompletion] using this
  · intro resp k hk hpre h400
    have := pollLoop_failed (fun s => s.code) (fun s => s.description.getD "Unknown error")
      resp k 10 0 0 hk (by simpa using hpre) (by simpa using h400)
    simpa [waitForAuthCompletion] using this
  · intro resp N hN hpre h200
    have := pollLoop_success (fun s => s.code) (fun s => s.description.getD "Unknown error")
      resp N 60 0 0 hN (by simpa using hpre) (by simpa using h200)
    simpa [waitForExportCompletion] using this
  · intro resp hpre
    have := pollLoop_timeout (fun s => s.code) (fun s => s.description.getD "Unknown error")
      resp 60 0 0 (by simpa using hpre)
    simpa [waitForExportCompletion] using this
  · intro resp k hk hpre h400
    have := pollLoop_failed (fun s => s.code) (fun s => s.description.getD "Unknown error")
      resp k 60 0 0 hk (by simpa using hpre) (by simpa using h400)
    simpa [waitForExportCompletion] using this

/-- Witness for C5: concrete response sequences exercising all six
conjuncts (success after 2 non-terminal responses, timeout, failure with
the server description), for both loops. -/
theorem poll_loops_terminal_behaviour_witness :
    waitForAuthCompletion
        (fun i => if i < 2 then ⟨100, none⟩ else ⟨200, none⟩) = .success ⟨200, none⟩ 3 2
    ∧ waitForAuthCompletion (fun _ => ⟨100, none⟩) = .timeout 10
    ∧ waitForAuthCompletion
        (fun i => if i = 0 then ⟨100, none⟩ else ⟨500, some "err"⟩) = .failed "err" 2
    ∧ waitForExportCompletion
        (fun i => if i < 2 then ⟨100, none, none⟩ else ⟨200, none, none⟩)
        = .success ⟨200, none, none⟩ 3 2
    ∧ waitForExportCompletion (fun _ => ⟨100, none, none⟩) = .timeout 60
    ∧ waitForExportCompletion
        (fun i => if i = 0 then ⟨100, none, none⟩ else ⟨500, some "err", none⟩)
        = .failed "err" 2 := by
  refine ⟨?_, ?_, ?_, ?_, ?_, ?_⟩
  · exact poll_loops_terminal_behaviour.1 _ 2 (by omega)
      (by intro i hi; interval_cases i <;> exact ⟨by decide, by decide⟩) (by decide)
  · exact poll_loops_terminal_behaviour.2.1 _
      (by intro i _; exact ⟨by decide, by decide⟩)
  · exact poll_loops_terminal_behaviour.2.2.1 _ 1 (by omega)
      (by intro i hi; interval_cases i; exact ⟨by decide, by decide⟩) (by decide)
  · exact poll_loops_terminal_behaviour.2.2.2.1 _ 2 (by omega)
      (by intro i hi; interval_cases i <;> exact ⟨by decide, by decide⟩) (by decide)
  · exact poll_loops_terminal_behaviour.2.2.2.2.1 _
      (by intro i _; exact ⟨by decide, by decide⟩)
  · exact poll_loops_terminal_behaviour.2.2.2.2.2 _ 1 (by omega)
      (by intro i hi; interval_cases i; exact ⟨by decide, by decide⟩) (by decide)

/-- C3: the cursor-advancement rule of `_update_continuation_point`: for a
truncated package with both dates present, the cursor is set to
`lastPermanentStorageDate` (D1), not to `permanentStorageHwmDate` (D2);
for a non-truncated package with only `permanentStorageHwmDate` present,
the cursor is set to D2; when neither date is present, the state is left
unchanged.  (`D1 ≠ ""`/`D2 ≠ ""` expresses that a present date is a real,
non-empty value, matching Python truthiness; `D1 ≠ D2` corresponds to the
claim's `D1 < D2`.) -/
theorem continuation_advancement_rule
    (st : StateMap) (subj : String) (pkg : Package) (D1 D2 : String) :
    (pkg.isTruncated = true → pkg.lastPermanentStorageDate = some D1 →
        pkg.permanentStorageHwmDate = some D2 → D1 ≠ "" → D1 ≠ D2 →
        updateContinuationPoint st subj pkg (stateKey subj) = some D1
          ∧ updateContinuationPoint st subj pkg (stateKey subj) ≠ some D2)
    ∧ (pkg.isTruncated = false → pkg.permanentStorageHwmDate = some D2 →
        pkg.lastPermanentStorageDate = none → D2 ≠ "" →
        updateContinuationPoint st subj pkg (stateKey subj) = some D2)
    ∧ (pkg.lastPermanentStorageDate = none → pkg.permanentStorageHwmDate = none →
        updateContinuationPoint st subj pkg = st) := by
  refine ⟨?_, ?_, ?_⟩
  · intro htr hlast _ hne hnedates
    have h : updateContinuationPoint st subj pkg (stateKey subj) = some D1 := by
      simp [updateContinuationPoint, htr, hlast, hne, StateMap.set]
    refine ⟨h, ?_⟩
    rw [h]
    intro hcontra
    exact hnedates (by injection hcontra)
  · intro htr hhwm _ hne
    simp [updateContinuationPoint, htr, hhwm, hne, StateMap.set]
  · intro hlast hhwm
    by_cases htr : pkg.isTruncated
    · simp [updateContinuationPoint, htr, hlast]
    · simp [updateContinuationPoint, htr, hhwm]

/-- Witness for C3: three concrete packages, one per branch of the rule. -/
theorem continuation_advancement_rule_witness :
    (updateContinuationPoint (fun _ => none) "Subject1"
        ⟨[], true, some "2024-06-10T00:00:00Z", some "2024-06-15T00:00:00Z"⟩
        (stateKey "Subject1") = some "2024-06-10T00:00:00Z"
      ∧ updateContinuationPoint (fun _ => none) "Subject1"
        ⟨[], true, some "2024-06-10T00:00:00Z", some "2024-06-15T00:00:00Z"⟩
        (stateKey "Subject1") ≠ some "2024-06-15T00:00:00Z")
    ∧ updateContinuationPoint (fun _ => none) "Subject1"
        ⟨[], false, none, some "2024-06-15T00:00:00Z"⟩
        (stateKey "Subject1") = some "2024-06-15T00:00:00Z"
    ∧ updateContinuationPoint (fun _ => none) "Subject1" ⟨[], true, none, none⟩
        = (fun _ => none) := by
  refine ⟨?_, ?_, ?_⟩
  · exact (continuation_advancement_rule (fun _ => none) "Subject1" _
      "2024-06-10T00:00:00Z" "2024-06-15T00:00:00Z").1 rfl rfl rfl
      (by decide) (by decide)
  · exact (continuation_advancement_rule (fun _ => none) "Subject1" _
      "2024-06-10T00:00:00Z" "2024-06-15T00:00:00Z").2.1 rfl rfl rfl (by decide)
  · exact (continuation_advancement_rule (fun _ => none) "Subject1" _ "" "").2.2 rfl rfl

/-- C9: when a package reports `isTruncated = true` but carries no
`lastPermanentStorageDate`, `_update_continuation_point` leaves the state
entirely unchanged even when `permanentStorageHwmDate` is present:
truncated advancement never falls back to the high-water-mark date. -/
theorem truncated_without_last_date_keeps_cursor
    (st : StateMap) (subj : String) (pkg : Package) (D2 : String)
    (htr : pkg.isTruncated = true)
    (hlast : pkg.lastPermanentStorageDate = none)
    (_hhwm : pkg.permanentStorageHwmDate = some D2) :
    updateContinuationPoint st subj pkg = st := by
  simp [updateContinuationPoint, htr, hlast]

/-- Witness for C9: a concrete truncated package with only the
high-water-mark date present leaves a concrete state unchanged. -/
theorem truncated_without_last_date_keeps_cursor_witness :
    updateContinuationPoint (fun _ => none) "Subject2"
        ⟨["u1"], true, none, some "2024-06-15T00:00:00Z"⟩ = (fun _ => none) :=
  truncated_without_last_date_keeps_cursor (fun _ => none) "Subject2"
    ⟨["u1"], true, none, some "2024-06-15T00:00:00Z"⟩ "2024-06-15T00:00:00Z"
    rfl rfl rfl

/-- C6: when no cursor is stored for a subject-role, the `date_from` used
for the export request is the first instant of the current calendar month
in UTC: `now` (taken from `datetime.now(timezone.utc)`) with day 1 and
hour, minute, second, microsecond all zero. -/
theorem default_cursor_first_of_month
    (st : StateMap) (fs : FsState) (subj : String) (now : DateTimeU)
    (resp : Nat → ExportStatus) (archive : Archive)
    (habsent : st (stateKey subj) = none) :
    (fetchForSubjectType st fs subj now resp archive).dateFromUsed
      = Sum.inr ⟨now.year, now.month, 1, 0, 0, 0, 0⟩ := by
  have hdf : effectiveDateFrom (st (stateKey subj)) now
      = Sum.inr ⟨now.year, now.month, 1, 0, 0, 0, 0⟩ := by
    rw [habsent]
    rfl
  unfold fetchForSubjectType
  cases hw : waitForExportCompletion resp with
  | success status calls sleeps =>
    cases hpkg : status.package <;> simpa [hpkg] using hdf
  | failed d calls => simpa using hdf
  | timeout calls => simpa using hdf

/-- Witness for C6: a concrete role with empty persisted state uses
2024-06-01T00:00:00.000000 UTC as `date_from` when `now` is
2024-06-20 12:30:45.123456 UTC. -/
theorem default_cursor_first_of_month_witness :
    (fetchForSubjectType (fun _ => none) ⟨[], [], []⟩ "Subject1"
        ⟨2024, 6, 20, 12, 30, 45, 123456⟩ (fun _ => ⟨200, none, none⟩)
        ⟨none, []⟩).dateFromUsed
      = Sum.inr ⟨2024, 6, 1, 0, 0, 0, 0⟩ :=
  default_cursor_first_of_month (fun _ => none) ⟨[], [], []⟩ "Subject1"
    ⟨2024, 6, 20, 12, 30, 45, 123456⟩ (fun _ => ⟨200, none, none⟩) ⟨none, []⟩ rfl

/-- C8: when the export poll for a subject-role succeeds (status code 200)
but the status response carries no `package` field, `_fetch_for_subject_type`
fetches no package parts, writes no documents (the filesystem state is
returned unchanged), and leaves the continuation state entirely
unchanged. -/
theorem no_package_leaves_state_unchanged
    (st : StateMap) (fs : FsState) (subj : String) (now : DateTimeU)
    (resp : Nat → ExportStatus) (archive : Archive) (status : ExportStatus)
    (calls sleeps : Nat)
    (hpoll : waitForExportCompletion resp = .success status calls sleeps)
    (hpkg : status.package = none) :
    (fetchForSubjectType st fs subj now resp archive).result = .ok (st, fs)
    ∧ (fetchForSubjectType st fs subj now resp archive).partsFetched = [] := by
  unfold fetchForSubjectType
  rw [hpoll]
  simp [hpkg]

/-- Witness for C8: a concrete immediate 200 response without a package
leaves concrete state and filesystem unchanged and fetches nothing. -/
theorem no_package_leaves_state_unchanged_witness :
    waitForExportCompletion (fun _ => ⟨200, none, none⟩)
      = .success ⟨200, none, none⟩ 1 0
    ∧ (fetchForSubjectType (fun _ => none) ⟨[("a.xml", "x")], [], []⟩ "Subject3"
        ⟨2024, 6, 20, 0, 0, 0, 0⟩ (fun _ => ⟨200, none, none⟩) ⟨none, []⟩).result
      = .ok ((fun _ => none), ⟨[("a.xml", "x")], [], []⟩)
    ∧ (fetchForSubjectType (fun _ => none) ⟨[("a.xml", "x")], [], []⟩ "Subject3"
        ⟨2024, 6, 20, 0, 0, 0, 0⟩ (fun _ => ⟨200, none, none⟩) ⟨none, []⟩).partsFetched
      = [] := by
  refine ⟨by decide, ?_, ?_⟩
  · exact (no_package_leaves_state_unchanged (fun _ => none) ⟨[("a.xml", "x")], [], []⟩
      "Subject3" ⟨2024, 6, 20, 0, 0, 0, 0⟩ (fun _ => ⟨200, none, none⟩) ⟨none, []⟩
      ⟨200, none, none⟩ 1 0 (by decide) rfl).1
  · exact (no_package_leaves_state_unchanged (fun _ => none) ⟨[("a.xml", "x")], [], []⟩
      "Subject3" ⟨2024, 6, 20, 0, 0, 0, 0⟩ (fun _ => ⟨200, none, none⟩) ⟨none, []⟩
      ⟨200, none, none⟩ 1 0 (by decide) rfl).2

/-- C2 (evaluating the code at failing inputs): `decrypt_aes` performs no
bounds check on the padding byte.  With the identity block map and a zero
IV, a one-block ciphertext whose decrypted last byte is 0 yields
`some []` — Python's `decrypted[:-0]` is empty — and one whose decrypted
last byte is 255 (far above the block size 16) also yields `some []`;
neither raises any error, contradicting the claim that such inputs fail
with `DecryptionError`. -/
theorem decrypt_aes_silently_truncates :
    decrypt_aes (fun b => b) (List.replicate 16 0) (List.replicate 15 7 ++ [0]) = some []
    ∧ decrypt_aes (fun b => b) (List.replicate 16 0) (List.replicate 15 7 ++ [255])
      = some [] := by
  exact ⟨by decide, by decide⟩

/-- C7: for any block cipher `E` with inverse `D` (the AES-256 block
permutation under an arbitrary 32-byte key, together with its inverse,
abstracted: `E` preserves 16-byte blocks and `D ∘ E` is the identity on
them), and any 16-byte IV, decrypting with `decrypt_aes` the reference
AES-256-CBC encryption of the PKCS#7-padded plaintext under the same key
and IV returns exactly the original plaintext — in particular for
plaintexts of length 0, 1, or more than one 16-byte block. -/
theorem decrypt_aes_roundtrip (E D : List Nat → List Nat) (iv m : List Nat)
    (hD : ∀ b, b.length = 16 → D (E b) = b)
    (hE : ∀ b, b.length = 16 → (E b).length = 16)
    (hiv : iv.length = 16) :
    decrypt_aes D iv (encryptFixture E iv m) = some m := by
  unfold decrypt_aes encryptFixture
  rw [chunks16_of_join _ (cbcEncryptBlocks_length E hE _ iv (pkcs7pad_blocks m) hiv)]
  rw [cbcDecrypt_cbcEncrypt E D hD hE _ iv (pkcs7pad_blocks m) hiv]
  rw [chunks16_join]
  exact stripPkcs7_pkcs7pad m

/-- Witness for C7: the identity block map (its own inverse) with a zero
IV round-trips concrete plaintexts of length 0, 1 and 18 (more than one
block). -/
theorem decrypt_aes_roundtrip_witness :
    decrypt_aes (fun b => b) (List.replicate 16 0)
        (encryptFixture (fun b => b) (List.replicate 16 0) []) = some []
    ∧ decrypt_aes (fun b => b) (List.replicate 16 0)
        (encryptFixture (fun b => b) (List.replicate 16 0) [9]) = some [9]
    ∧ decrypt_aes (fun b => b) (List.replicate 16 0)
        (encryptFixture (fun b => b) (List.replicate 16 0)
          [1, 2, 3, 4, 5, 6, 7, 8, 9, 10, 11, 12, 13, 14, 15, 16, 17, 18])
      = some [1, 2, 3, 4, 5, 6, 7, 8, 9, 10, 11, 12, 13, 14, 15, 16, 17, 18] := by
  refine ⟨?_, ?_, ?_⟩
  · exact decrypt_aes_roundtrip (fun b => b) (fun b => b) (List.replicate 16 0) []
      (fun _ _ => rfl) (fun _ h => h) (by decide)
  · exact decrypt_aes_roundtrip (fun b => b) (fun b => b) (List.replicate 16 0) [9]
      (fun _ _ => rfl) (fun _ h => h) (by decide)
  · exact decrypt_aes_roundtrip (fun b => b) (fun b => b) (List.replicate 16 0)
      [1, 2, 3, 4, 5, 6, 7, 8, 9, 10, 11, 12, 13, 14, 15, 16, 17, 18]
      (fun _ _ => rfl) (fun _ h => h) (by decide)

/-! ## Materialization lemmas -/

/-- The extraction loop over a plain document list (the body of
`processArchive` after filtering). -/
def runDocs (metadata : Option (List String)) (docs : List Doc) (fs : FsState) : FsState :=
  docs.foldl (fun s d => saveInvoice s metadata d) fs

/-- A run's sequence of `_save_invoice` calls across packages and
subject-roles, each call carrying the metadata of the package it belongs
to.  The seen-set and new-invoice list are fields of `InvoiceFetcher` and
persist across packages, so every state reachable during a run is
`runOps` of some prefix of calls. -/
def runOps (ops : List (Option (List String) × Doc)) (fs : FsState) : FsState :=
  ops.foldl (fun s p => saveInvoice s p.1 p.2) fs

theorem processArchive_eq_runDocs (fs : FsState) (md : Option (List String))
    (entries : List Doc) :
    processArchive fs md entries
      = runDocs md (entries.filter (fun d => pyEndsWith d.filename ".xml")) fs := rfl

theorem runDocs_cons (md : Option (List String)) (d : Doc) (rest : List Doc)
    (fs : FsState) :
    runDocs md (d :: rest) fs = runDocs md rest (saveInvoice fs md d) := rfl

theorem lookupFile_cons (f g c : String) (disk : List (String × String)) :
    lookupFile f ((g, c) :: disk) = if f = g then some c else lookupFile f disk := rfl

theorem saveInvoice_seen (fs : FsState) (md : Option (List String)) (d : Doc)
    (h : deriveKsefNumber md d.filename ∈ fs.downloaded) :
    saveInvoice fs md d = fs := by
  simp [saveInvoice, h]

theorem saveInvoice_onDisk (fs : FsState) (md : Option (List String)) (d : Doc)
    (h1 : deriveKsefNumber md d.filename ∉ fs.downloaded)
    (h2 : (lookupFile d.filename fs.disk).isSome) :
    saveInvoice fs md d
      = { fs with downloaded := deriveKsefNumber md d.filename :: fs.downloaded } := by
  simp [saveInvoice, h1, h2]

theorem saveInvoice_write (fs : FsState) (md : Option (List String)) (d : Doc)
    (h1 : deriveKsefNumber md d.filename ∉ fs.downloaded)
    (h2 : lookupFile d.filename fs.disk = none) :
    saveInvoice fs md d
      = ⟨(d.filename, d.content) :: fs.disk,
         deriveKsefNumber md d.filename :: fs.downloaded,
         fs.newInvoices ++ [⟨deriveKsefNumber md d.filename, d.filename⟩]⟩ := by
  simp [saveInvoice, h1, h2]

theorem saveInvoice_disk_mono (fs : FsState) (md : Option (List String)) (d : Doc)
    (f c : String) (h : lookupFile f fs.disk = some c) :
    lookupFile f (saveInvoice fs md d).disk = some c := by
  by_cases h1 : deriveKsefNumber md d.filename ∈ fs.downloaded
  · rw [saveInvoice_seen _ _ _ h1]; exact h
  · cases h2 : lookupFile d.filename fs.disk with
    | some c2 => rw [saveInvoice_onDisk _ _ _ h1 (by simp [h2])]; exact h
    | none =>
      rw [saveInvoice_write _ _ _ h1 h2]
      show lookupFile f ((d.filename, d.content) :: fs.disk) = some c
      rw [lookupFile_cons]
      by_cases hf : f = d.filename
      · subst hf; rw [h] at h2; exact absurd h2 (by simp)
      · rw [if_neg hf]; exact h

theorem runDocs_disk_mono (md : Option (List String)) (docs : List Doc) :
    ∀ (fs : FsState) (f c : String), lookupFile f fs.disk = some c →
      lookupFile f (runDocs md docs fs).disk = some c := by
  induction docs with
  | nil => intro fs f c h; exact h
  | cons d rest ih =>
    intro fs f c h
    rw [runDocs_cons]
    exact ih _ f c (saveInvoice_disk_mono fs md d f c h)

theorem saveInvoice_downloaded_mem (fs : FsState) (md : Option (List String))
    (d : Doc) (x : String) :
    x ∈ (saveInvoice fs md d).downloaded ↔
      x ∈ fs.downloaded ∨ x = deriveKsefNumber md d.filename := by
  by_cases h1 : deriveKsefNumber md d.filename ∈ fs.downloaded
  · rw [saveInvoice_seen _ _ _ h1]
    constructor
    · exact Or.inl
    · rintro (hx | rfl)
      · exact hx
      · exact h1
  · cases h2 : lookupFile d.filename fs.disk with
    | some c2 =>
      rw [saveInvoice_onDisk _ _ _ h1 (by simp [h2])]
      simp [List.mem_cons, or_comm]
    | none =>
      rw [saveInvoice_write _ _ _ h1 h2]
      simp [List.mem_cons, or_comm]

theorem runDocs_idempotent (md : Option (List String)) :
    ∀ (docs : List Doc) (s1 s2 : FsState),
      s2.disk = (runDocs md docs s1).disk →
      s2.newInvoices = [] →
      (∀ x ∈ s1.downloaded, x ∈ s2.downloaded) →
      (runDocs md docs s2).disk = s2.disk ∧ (runDocs md docs s2).newInvoices = [] := by
  intro docs
  induction docs with
  | nil => intro s1 s2 _ hnew _; exact ⟨rfl, hnew⟩
  | cons d rest ih =>
    intro s1 s2 hdisk hnew hsub
    by_cases hk2 : deriveKsefNumber md d.filename ∈ s2.downloaded
    · have hs2 : saveInvoice s2 md d = s2 := saveInvoice_seen _ _ _ hk2
      rw [runDocs_cons, hs2]
      refine ih (saveInvoice s1 md d) s2 ?_ hnew ?_
      · rw [hdisk, runDocs_cons]
      · intro x hx
        rcases (saveInvoice_downloaded_mem s1 md d x).1 hx with hx1 | rfl
        · exact hsub x hx1
        · exact hk2
    · have hk1 : deriveKsefNumber md d.filename ∉ s1.downloaded :=
        fun h => hk2 (hsub _ h)
      have hfile : ∃ c, lookupFile d.filename (saveInvoice s1 md d).disk = some c := by
        cases h2 : lookupFile d.filename s1.disk with
        | some c =>
          exact ⟨c, by rw [saveInvoice_onDisk _ _ _ hk1 (by simp [h2])]; exact h2⟩
        | none =>
          refine ⟨d.content, ?_⟩
          rw [saveInvoice_write _ _ _ hk1 h2]
          show lookupFile d.filename ((d.filename, d.content) :: s1.disk) = some d.content
          rw [lookupFile_cons, if_pos rfl]
      rcases hfile with ⟨c, hc⟩
      have hcdisk : lookupFile d.filename s2.disk = some c := by
        rw [hdisk, runDocs_cons]
        exact runDocs_disk_mono md rest _ _ _ hc
      have hs2 : saveInvoice s2 md d
          = { s2 with downloaded := deriveKsefNumber md d.filename :: s2.downloaded } :=
        saveInvoice_onDisk _ _ _ hk2 (by simp [hcdisk])
      rw [runDocs_cons, hs2]
      have hres := ih (saveInvoice s1 md d)
        { s2 with downloaded := deriveKsefNumber md d.filename :: s2.downloaded }
        (by rw [hdisk, runDocs_cons]) hnew ?_
      · exact hres
      · intro x hx
        rcases (saveInvoice_downloaded_mem s1 md d x).1 hx with hx1 | rfl
        · exact List.mem_cons_of_mem _ (hsub x hx1)
        · exact List.mem_cons_self _ _

theorem saveInvoice_invariant (fs : FsState) (md : Option (List String)) (d : Doc)
    (h1 : (fs.newInvoices.map InvoiceRecord.ksefNumber).Nodup)
    (h2 : ∀ r ∈ fs.newInvoices, r.ksefNumber ∈ fs.downloaded) :
    ((saveInvoice fs md d).newInvoices.map InvoiceRecord.ksefNumber).Nodup
    ∧ ∀ r ∈ (saveInvoice fs md d).newInvoices,
        r.ksefNumber ∈ (saveInvoice fs md d).downloaded := by
  by_cases hks : deriveKsefNumber md d.filename ∈ fs.downloaded
  · rw [saveInvoice_seen _ _ _ hks]
    exact ⟨h1, h2⟩
  · cases hl : lookupFile d.filename fs.disk with
    | some c =>
      rw [saveInvoice_onDisk _ _ _ hks (by simp [hl])]
      refine ⟨h1, ?_⟩
      intro r hr
      exact List.mem_cons_of_mem _ (h2 r hr)
    | none =>
      rw [saveInvoice_write _ _ _ hks hl]
      constructor
      · show ((fs.newInvoices
            ++ [(⟨deriveKsefNumber md d.filename, d.filename⟩ : InvoiceRecord)]).map
              InvoiceRecord.ksefNumber).Nodup
        rw [List.map_append]
        rw [List.nodup_append]
        refine ⟨h1, List.nodup_singleton _, ?_⟩
        intro x hx hxk
        simp only [List.map_cons, List.map_nil, List.mem_singleton] at hxk
        rcases List.mem_map.mp hx with ⟨r, hr, rfl⟩
        exact hks (hxk ▸ h2 r hr)
      · intro r hr
        rcases List.mem_append.mp hr with hr | hr
        · exact List.mem_cons_of_mem _ (h2 r hr)
        · simp only [List.mem_singleton] at hr
          subst hr
          exact List.mem_cons_self _ _

/-- C4: materializing the same package a second time against the same
destination directory (with the seen-set empty again, as at the start of a
new run) leaves the set of files on disk unchanged and produces zero new
`InvoiceRecord`s; and for any single document whose derived identifier is
unseen but whose filename is already on disk, `_save_invoice` marks the
identifier seen and skips the document — disk and new-invoice list
untouched — even though the seen-set did not contain it. -/
theorem package_materialization_idempotent
    (pkg : Package) (archive : Archive) (disk0 : List (String × String))
    (fs : FsState) (metadata : Option (List String)) (d : Doc) (c : String)
    (hseen : deriveKsefNumber metadata d.filename ∉ fs.downloaded)
    (hdisk : lookupFile d.filename fs.disk = some c) :
    ((processPackage ⟨(processPackage ⟨disk0, [], []⟩ pkg archive).1.disk, [], []⟩
          pkg archive).1.disk
        = (processPackage ⟨disk0, [], []⟩ pkg archive).1.disk
      ∧ (processPackage ⟨(processPackage ⟨disk0, [], []⟩ pkg archive).1.disk, [], []⟩
          pkg archive).1.newInvoices = [])
    ∧ saveInvoice fs metadata d
        = { fs with downloaded := deriveKsefNumber metadata d.filename :: fs.downloaded } := by
  constructor
  · by_cases hparts : pkg.parts = []
    · simp [processPackage, hparts]
    · simp only [processPackage, if_neg hparts]
      rw [processArchive_eq_runDocs, processArchive_eq_runDocs]
      exact runDocs_idempotent archive.metadata _ ⟨disk0, [], []⟩ _ rfl rfl
        (by intro x hx; exact absurd hx (List.not_mem_nil x))
  · exact saveInvoice_onDisk fs metadata d hseen (by simp [hdisk])

/-- Witness for C4: a one-part package whose archive holds `a.xml` with
metadata identifier `a`; the second materialization against the directory
produced by the first changes nothing and yields no new records, and a
single `a.xml` already on disk is skipped with its identifier marked seen
from an empty seen-set. -/
theorem package_materialization_idempotent_witness :
    ((processPackage
          ⟨(processPackage ⟨[], [], []⟩ ⟨["u1"], false, none, none⟩
              ⟨some ["a"], [⟨"a.xml", "x"⟩]⟩).1.disk, [], []⟩
          ⟨["u1"], false, none, none⟩ ⟨some ["a"], [⟨"a.xml", "x"⟩]⟩).1.disk
        = (processPackage ⟨[], [], []⟩ ⟨["u1"], false, none, none⟩
            ⟨some ["a"], [⟨"a.xml", "x"⟩]⟩).1.disk
      ∧ (processPackage
          ⟨(processPackage ⟨[], [], []⟩ ⟨["u1"], false, none, none⟩
              ⟨some ["a"], [⟨"a.xml", "x"⟩]⟩).1.disk, [], []⟩
          ⟨["u1"], false, none, none⟩ ⟨some ["a"], [⟨"a.xml", "x"⟩]⟩).1.newInvoices = [])
    ∧ saveInvoice ⟨[("a.xml", "x")], [], []⟩ (some ["a"]) ⟨"a.xml", "x"⟩
        = ⟨[("a.xml", "x")], ["a"], []⟩ :=
  package_materialization_idempotent ⟨["u1"], false, none, none⟩
    ⟨some ["a"], [⟨"a.xml", "x"⟩]⟩ [] ⟨[("a.xml", "x")], [], []⟩ (some ["a"])
    ⟨"a.xml", "x"⟩ "x" (by decide) (by decide)

/-- C10: over any sequence of `_save_invoice` calls starting from the
empty seen-set and empty new-invoice list (any prefix of any run, across
all subject-roles and packages), the list of newly fetched records never
contains two records with the same `ksefNumber`, and every `ksefNumber`
in the list is a member of the seen-set; moreover each package's
extraction (`processArchive`) is exactly such a call sequence. -/
theorem new_invoices_unique_and_seen (ops : List (Option (List String) × Doc))
    (disk0 : List (String × String)) :
    (((runOps ops ⟨disk0, [], []⟩).newInvoices.map InvoiceRecord.ksefNumber).Nodup
      ∧ ∀ r ∈ (runOps ops ⟨disk0, [], []⟩).newInvoices,
          r.ksefNumber ∈ (runOps ops ⟨disk0, [], []⟩).downloaded)
    ∧ ∀ (md : Option (List String)) (entries : List Doc) (fs0 : FsState),
        processArchive fs0 md entries
          = runOps ((entries.filter (fun d => pyEndsWith d.filename ".xml")).map
              (fun d => (md, d))) fs0 := by
  constructor
  · have main : ∀ (ops : List (Option (List String) × Doc)) (fs : FsState),
        (fs.newInvoices.map InvoiceRecord.ksefNumber).Nodup →
        (∀ r ∈ fs.newInvoices, r.ksefNumber ∈ fs.downloaded) →
        ((runOps ops fs).newInvoices.map InvoiceRecord.ksefNumber).Nodup
          ∧ ∀ r ∈ (runOps ops fs).newInvoices,
              r.ksefNumber ∈ (runOps ops fs).downloaded := by
      intro ops
      induction ops with
      | nil => intro fs h1 h2; exact ⟨h1, h2⟩
      | cons p rest ih =>
        intro fs h1 h2
        have hstep := saveInvoice_invariant fs p.1 p.2 h1 h2
        exact ih (saveInvoice fs p.1 p.2) hstep.1 hstep.2
    exact main ops ⟨disk0, [], []⟩ (by simp) (by simp)
  · intro md entries fs0
    rw [processArchive_eq_runDocs]
    unfold runOps runDocs
    rw [List.foldl_map]

/-- Witness for C10: a concrete three-call sequence (a document, the same
document again, then a second document) produces a duplicate-free record
list whose identifier is in the seen-set, and a concrete `processArchive`
call equals the corresponding `runOps` sequence. -/
theorem new_invoices_unique_and_seen_witness :
    ((runOps [(some ["a"], ⟨"a.xml", "x"⟩), (none, ⟨"a.xml", "x"⟩), (none, ⟨"b.xml", "y"⟩)]
        ⟨[], [], []⟩).newInvoices.map InvoiceRecord.ksefNumber).Nodup
    ∧ (⟨"a", "a.xml"⟩ : InvoiceRecord).ksefNumber
        ∈ (runOps [(some ["a"], ⟨"a.xml", "x"⟩), (none, ⟨"a.xml", "x"⟩), (none, ⟨"b.xml", "y"⟩)]
            ⟨[], [], []⟩).downloaded
    ∧ processArchive ⟨[], [], []⟩ (some ["a"]) [⟨"a.xml", "x"⟩, ⟨"_metadata.json", "m"⟩]
        = runOps [(some ["a"], ⟨"a.xml", "x"⟩)] ⟨[], [], []⟩ := by
  refine ⟨(new_invoices_unique_and_seen
      [(some ["a"], ⟨"a.xml", "x"⟩), (none, ⟨"a.xml", "x"⟩), (none, ⟨"b.xml", "y"⟩)] []).1.1,
    (new_invoices_unique_and_seen
      [(some ["a"], ⟨"a.xml", "x"⟩), (none, ⟨"a.xml", "x"⟩), (none, ⟨"b.xml", "y"⟩)] []).1.2
      ⟨"a", "a.xml"⟩ (by decide), ?_⟩
  exact (new_invoices_unique_and_seen [] []).2 (some ["a"])
    [⟨"a.xml", "x"⟩, ⟨"_metadata.json", "m"⟩] ⟨[], [], []⟩

/-- C1 (evaluating the code at a failing run): `fetch_invoices` calls
`_save_state` once, after the loop over all subject types.  In a run where
Subject1 completes (its package advances the in-memory cursor to
2024-06-15, first conjunct) and Subject2's export then fails with a server
error, the run raises (second conjunct) and the persisted state file still
has no cursor for Subject1 (third conjunct) — the advanced cursor of the
completed subject-role was never persisted before the next subject-role
was processed. -/
theorem completed_role_cursor_not_persisted_on_failure :
    (fetchForSubjectType (fun _ => none) ⟨[], [], []⟩ "Subject1"
        ⟨2024, 6, 20, 12, 0, 0, 0⟩
        (fun _ => ⟨200, none, some ⟨[], false, none, some "2024-06-15T00:00:00Z"⟩⟩)
        ⟨none, []⟩).result
      = .ok (StateMap.set (fun _ => none) (stateKey "Subject1") "2024-06-15T00:00:00Z",
          ⟨[], [], []⟩)
    ∧ (fetchInvoices (fun _ => none) [] (.ok ())
        (fun subj =>
          if subj = "Subject1" then
            ⟨fun _ => ⟨200, none, some ⟨[], false, none, some "2024-06-15T00:00:00Z"⟩⟩,
              ⟨none, []⟩⟩
          else ⟨fun _ => ⟨500, some "server error", none⟩, ⟨none, []⟩⟩)
        ⟨2024, 6, 20, 12, 0, 0, 0⟩).outcome
      = .error "Eksport nie powiódł się: server error"
    ∧ (fetchInvoices (fun _ => none) [] (.ok ())
        (fun subj =>
          if subj = "Subject1" then
            ⟨fun _ => ⟨200, none, some ⟨[], false, none, some "2024-06-15T00:00:00Z"⟩⟩,
              ⟨none, []⟩⟩
          else ⟨fun _ => ⟨500, some "server error", none⟩, ⟨none, []⟩⟩)
        ⟨2024, 6, 20, 12, 0, 0, 0⟩).fileState (stateKey "Subject1")
      = none := by
  refine ⟨rfl, rfl, rfl⟩

end KsefCli

